import Mathlib

/-!
# Verification of `mod_io.c` (mynewt_app_iocontrol)

Shallow embedding of `src/apps/appcorerun/src/mod_io.c`, the generic IO
handling module for app-core, together with theorems settling the claims
about its specification.

Modelling conventions:
- The C context `static struct appctx { struct mio ios[NB_IOS]; }` is
  modelled as a total map `Int → Mio`.  Indices `0..7` are the slots of the
  table; the C code indexes the array with an `int` and (in `defineIO`)
  performs no bounds check, so the map is kept total over `Int` to make the
  unchecked store expressible.  An out-of-range store in the model is an
  out-of-bounds write (undefined behaviour) in the C program.
- `uint8_t` values are `Nat` with `% 256` applied exactly where the C code
  performs a narrowing conversion.
- External collaborators (GPIO driver, button manager, app-core host) are
  modelled by an oracle of input readings plus explicit event traces:
  every hardware configuration/read/write call and every
  `AppCore_forceUL` request is recorded in the result of the function that
  performs it.  The functions mutate no state other than the context they
  return, exactly as in the source.
- Enum values that live in external headers (`SR_BUTTON_RELEASED`,
  `APP_MOD_PTI`, `APP_CORE_UL_APP_SPECIFIC_START`) are fixed arbitrarily;
  no claim depends on their numeric values, only on their identities.
-/

namespace ModIo

/-- `IO_TYPE` from mod_io.c: `{ IO_DIN=0, IO_DOUT, IO_BUTTON, IO_STATE, IO_AIN, IO_PWMOUT }`. -/
inductive IO_TYPE where
  | IO_DIN | IO_DOUT | IO_BUTTON | IO_STATE | IO_AIN | IO_PWMOUT
  deriving DecidableEq, Repr, Inhabited

open IO_TYPE

/-- `NB_IOS` — number of managed IOs. -/
def NB_IOS : Nat := 8

/-- `GPIO_IDLE_TYPE` is an external enum (gpiomgr.h); its values are opaque here. -/
abbrev GPIO_IDLE_TYPE := Nat

/-- One slot of the table: `struct mio` from mod_io.c. -/
structure Mio where
  gpio : Int             -- `int8_t gpio; // if not -1, then active`
  name : String          -- `const char* name`
  type : IO_TYPE
  pull : GPIO_IDLE_TYPE
  valueDL : Nat          -- `uint8_t valueDL`
  valueUL : Nat          -- `uint8_t valueUL`
  deriving DecidableEq, Repr, Inhabited

/-- The context `_ctx.ios`, kept total over `Int` (see module docstring). -/
abbrev Ctx := Int → Mio

/-- The C `static` context is zero-initialised before any `defineIO` call. -/
def zeroCtx : Ctx := fun _ => ⟨0, "", IO_DIN, 0, 0, 0⟩

/-- Store a modified slot record at index `i`. -/
def updateSlot (c : Ctx) (i : Int) (f : Mio → Mio) : Ctx :=
  fun j => if j = i then f (c j) else c j

/-- Hardware accesses performed through the GPIO driver. -/
inductive HWEvent where
  | readPin (pin : Int)            -- `GPIO_read`
  | readADC (pin : Int)            -- `GPIO_readADC`
  | writePin (pin : Int) (v : Nat) -- `GPIO_write`
  deriving DecidableEq, Repr

/-- The pin an event touches. -/
def HWEvent.pin : HWEvent → Int
  | .readPin p => p
  | .readADC p => p
  | .writePin p _ => p

/-- Configuration calls performed by `initIOs` against the GPIO driver and
the button manager. -/
inductive CfgEvent where
  | defineIn (name : String) (pin : Int) (pull : GPIO_IDLE_TYPE)   -- `GPIO_define_in`
  | defineAdc (name : String) (pin : Int) (chan : Int)             -- `GPIO_define_adc`
  | defineOut (name : String) (pin : Int) (initial : Nat)          -- `GPIO_define_out`
  | defineButton (pin : Int)                                       -- `SRMgr_defineButton`
  | registerButtonCB (pin : Int) (cbArg : Int) (isStateCB : Bool)  -- `SRMgr_registerButtonCB`
  deriving DecidableEq, Repr

/-- The pin a configuration event concerns. -/
def CfgEvent.pin : CfgEvent → Int
  | .defineIn _ p _ => p
  | .defineAdc _ p _ => p
  | .defineOut _ p _ => p
  | .defineButton p => p
  | .registerButtonCB p _ _ => p

/-- Environment oracle: the values the hardware and the host would return.
`gpioRead`/`gpioReadADC` give the raw reading of a pin (the C code casts
them to `uint8_t`, hence the `% 256` at the use sites);
`deviceActive` is `AppCore_isDeviceActive()`. -/
structure HWOracle where
  gpioRead : Int → Nat
  gpioReadADC : Int → Nat
  deviceActive : Bool

/-- `SR_BUTTON_RELEASED` from the external sensormgr header (value opaque). -/
def SR_BUTTON_RELEASED : Nat := 0

/-- `SR_BUTTON_PRESSED` from the external sensormgr header (value opaque). -/
def SR_BUTTON_PRESSED : Nat := 1

/-- `MY_MOD_ID = APP_MOD_PTI` (external header value, opaque). -/
def MY_MOD_ID : Nat := 6

/-- `UL_APP_IO_STATE = APP_CORE_UL_APP_SPECIFIC_START` (external header value, opaque). -/
def UL_APP_IO_STATE : Nat := 64

/-- A tagged block appended to the uplink: (tag, declared length, bytes),
as passed to `app_core_msg_ul_addTLV`. -/
abbrev TLV := Nat × Nat × List Nat

/-!  ## The module's internal functions, one Lean definition per C function. -/

/-- `defineIO(ioid, gpio, name, t, pull, initialValue)`: stores the
configuration into `_ctx.ios[ioid]`.  The C code performs the five stores
with **no bounds check on `ioid`**; for `ioid` outside `[0, NB_IOS)` the
store is an out-of-bounds array write (undefined behaviour), modelled here
as a store at that index of the total map. -/
def defineIo (c : Ctx) (ioid : Int) (gpio : Int) (name : String)
    (t : IO_TYPE) (pull : GPIO_IDLE_TYPE) (initialValue : Nat) : Ctx :=
  updateSlot c ioid (fun s =>
    { s with gpio := gpio, name := name, type := t, pull := pull,
             valueDL := initialValue })

/-- Body of the `initIOs` loop for one index `i`: the configuration calls
made for slot `i` (the loop mutates no context state). -/
def initIOsStep (c : Ctx) (i : Nat) : List CfgEvent :=
  if (c i).gpio ≥ 0 then
    match (c i).type with
    | IO_DIN => [CfgEvent.defineIn (c i).name (c i).gpio (c i).pull]
    | IO_AIN => [CfgEvent.defineAdc (c i).name (c i).gpio (c i).gpio]
    | IO_BUTTON => [CfgEvent.defineButton (c i).gpio,
                    CfgEvent.registerButtonCB (c i).gpio i false]
    | IO_STATE => [CfgEvent.defineButton (c i).gpio,
                   CfgEvent.registerButtonCB (c i).gpio i true]
    | IO_DOUT => [CfgEvent.defineOut (c i).name (c i).gpio (c i).valueDL]
    | IO_PWMOUT => []      -- `GPIO_define_pwm` is commented out (TBD)
  else []

/-- `initIOs()`: for each slot with an assigned pin, performs the
kind-specific configuration calls.  It reads the context but writes
nothing to it. -/
def initIOs (c : Ctx) : List CfgEvent :=
  (List.range NB_IOS).flatMap (initIOsStep c)

/-- `readIO(ioid)`: returns the updated context, the hardware accesses
performed, and the returned `uint8_t` value. -/
def readIo (o : HWOracle) (c : Ctx) (ioid : Int) : Ctx × List HWEvent × Nat :=
  if 0 ≤ ioid ∧ ioid < (NB_IOS : Int) then
    if (c ioid).gpio ≥ 0 then
      match (c ioid).type with
      | IO_DIN =>
          let v := o.gpioRead (c ioid).gpio % 256
          let c' := updateSlot c ioid (fun s => { s with valueUL := v })
          (c', [HWEvent.readPin (c ioid).gpio], (c' ioid).valueUL)
      | IO_AIN =>
          let v := o.gpioReadADC (c ioid).gpio % 256
          let c' := updateSlot c ioid (fun s => { s with valueUL := v })
          (c', [HWEvent.readADC (c ioid).gpio], (c' ioid).valueUL)
      | _ => (c, [], (c ioid).valueUL)   -- buttons handled by callback; others ignored
    else (c, [], (c ioid).valueUL)
  else (c, [], 0)

/-- `writeIO(ioid, val)`: for a DOUT slot with an assigned pin the C code
calls `GPIO_write(_ctx.ios[ioid].gpio, _ctx.ios[ioid].valueDL)` — note it
writes the stored `valueDL`, not the argument `val`.  The PWMOUT branch is
commented out (TODO).  The function never assigns to the context. -/
def writeIo (c : Ctx) (ioid : Int) (val : Nat) : Ctx × List HWEvent :=
  if 0 ≤ ioid ∧ ioid < (NB_IOS : Int) then
    if (c ioid).gpio ≥ 0 then
      match (c ioid).type with
      | IO_DOUT => (c, [HWEvent.writePin (c ioid).gpio (c ioid).valueDL])
      | _ => (c, [])
    else (c, [])
  else (c, [])

/-- The `readIOs` loop over a list of indices. -/
def readLoop (o : HWOracle) : List Nat → Ctx → Ctx × List HWEvent
  | [], c => (c, [])
  | i :: rest, c =>
      let r := readIo o c i
      let rr := readLoop o rest r.1
      (rr.1, r.2.1 ++ rr.2)

/-- `readIOs()`: reads every IO in order `0..NB_IOS-1`. -/
def readIOs (o : HWOracle) (c : Ctx) : Ctx × List HWEvent :=
  readLoop o (List.range NB_IOS) c

/-- The `iosetAction` inner loop over a list of indices.  For each slot of
type `IO_DOUT` or `IO_PWMOUT` it stores `v[i]` into `valueDL` and then
calls `writeIO(i, v[i])` on the just-updated context.  Besides the
hardware trace it records each `writeIO` invocation `(i, v[i])`, so that
"the driver write path is invoked" is expressible. -/
def iosetLoop (v : List Nat) : List Nat → Ctx → Ctx × List HWEvent × List (Int × Nat)
  | [], c => (c, [], [])
  | i :: rest, c =>
      if (c i).type = IO_DOUT ∨ (c i).type = IO_PWMOUT then
        let c' := updateSlot c i (fun s => { s with valueDL := v.getD i 0 })
        let w := writeIo c' i (v.getD i 0)
        let rr := iosetLoop v rest w.1
        (rr.1, w.2 ++ rr.2.1, (i, v.getD i 0) :: rr.2.2)
      else iosetLoop v rest c

/-- `iosetAction(v, l)`: the downlink handler.  `l` is the length the
dispatcher passes alongside the byte pointer, i.e. the length of `v`.
If `l != NB_IOS` it only logs a warning and returns. -/
def iosetAction (c : Ctx) (v : List Nat) : Ctx × List HWEvent × List (Int × Nat) :=
  if v.length = NB_IOS then iosetLoop v (List.range NB_IOS) c
  else (c, [], [])

/-- The `getData` loop over a list of indices: copies `valueUL` of each
slot into the report and resets it to 0. -/
def harvestLoop : List Nat → Ctx → List Nat × Ctx
  | [], c => ([], c)
  | i :: rest, c =>
      let b := (c i).valueUL
      let c' := updateSlot c i (fun s => { s with valueUL := 0 })
      let rr := harvestLoop rest c'
      (b :: rr.1, rr.2)

/-- `getData(ul)`: refreshes the inputs via `readIOs`, builds the
`NB_IOS+1`-byte block (per-slot `valueUL`, then the device-active flag),
resets each `valueUL` to 0, appends the block with tag `UL_APP_IO_STATE`
and declared length 12 via `app_core_msg_ul_addTLV`, and returns `true`. -/
def getData (o : HWOracle) (c : Ctx) (ul : List TLV) :
    Ctx × List HWEvent × List TLV × Bool :=
  let r := readIOs o c
  let h := harvestLoop (List.range NB_IOS) r.1
  let ds := h.1 ++ [if o.deviceActive then 1 else 0]
  (h.2, r.2, ul ++ [(UL_APP_IO_STATE, 12, ds)], true)

/-- `buttonChangeCB(ctx, currentState, currentPressType)`: fires on button
edges.  `active` models `AppCore_isDeviceActive()`; `ctxArg` is the slot
index smuggled through the opaque callback context.  Returns the updated
context and the list of `AppCore_forceUL` module-id arguments issued. -/
def buttonChangeCB (active : Bool) (c : Ctx) (ctxArg : Int)
    (currentState : Nat) (currentPressType : Nat) : Ctx × List Nat :=
  if currentState = SR_BUTTON_RELEASED then
    if active then
      if 0 ≤ ctxArg ∧ ctxArg < (NB_IOS : Int) then
        (updateSlot c ctxArg (fun s => { s with valueUL := currentPressType % 256 }),
         [MY_MOD_ID])
      else (c, [])      -- log_warn("bad id"), no action
    else (c, [])        -- ignore, not active
  else (c, [])          -- log_info("button pressed") only

/-- `stateInputChangeCB(ctx, currentState, currentPressType)`: fires on
every state transition of a state input. -/
def stateInputChangeCB (active : Bool) (c : Ctx) (ctxArg : Int)
    (currentState : Nat) (currentPressType : Nat) : Ctx × List Nat :=
  if active then
    if 0 ≤ ctxArg ∧ ctxArg < (NB_IOS : Int) then
      (updateSlot c ctxArg (fun s => { s with valueUL := currentState % 256 }),
       [MY_MOD_ID])
    else (c, [])        -- log_warn("bad id"), no action
  else (c, [])          -- ignore, not active

/-! ## Example inputs used by counterexamples and witnesses -/

/-- Slot 0: DigitalOut on pin 5 with stored `valueDL = 0`; others unassigned. -/
def outCtx : Ctx := fun j =>
  if j = 0 then ⟨5, "o", IO_DOUT, 0, 0, 0⟩ else ⟨-1, "", IO_DIN, 0, 0, 0⟩

/-- Slot 0: DigitalIn on pin 1; others unassigned. -/
def dinCtx : Ctx := fun j =>
  if j = 0 then ⟨1, "d", IO_DIN, 0, 0, 0⟩ else ⟨-1, "", IO_DIN, 0, 0, 0⟩

/-- Slot 0: unassigned pin but a stale nonzero `valueUL`. -/
def staleCtx : Ctx := fun j =>
  if j = 0 then ⟨-1, "s", IO_DIN, 0, 0, 5⟩ else ⟨-1, "", IO_DIN, 0, 0, 0⟩

/-- Slot 0: declared DigitalOut but with the unassigned pin sentinel `-1`. -/
def ghostOutCtx : Ctx := fun j =>
  if j = 0 then ⟨-1, "g", IO_DOUT, 0, 0, 0⟩ else ⟨-1, "", IO_DIN, 0, 0, 0⟩

/-- Oracle: every digital read returns 1, ADC reads return 0, device active. -/
def onesOracle : HWOracle := ⟨fun _ => 1, fun _ => 0, true⟩

/-- Oracle: all reads return 0, device inactive. -/
def zeroOracle : HWOracle := ⟨fun _ => 0, fun _ => 0, false⟩

/-! ## Helper lemmas -/

theorem updateSlot_self (c : Ctx) (i : Int) (f : Mio → Mio) :
    updateSlot c i f i = f (c i) := by
  simp [updateSlot]

theorem updateSlot_ne (c : Ctx) (i j : Int) (f : Mio → Mio) (h : j ≠ i) :
    updateSlot c i f j = c j := by
  simp [updateSlot, h]

theorem writeIo_fst (c : Ctx) (i : Int) (v : Nat) : (writeIo c i v).1 = c := by
  unfold writeIo
  by_cases h1 : 0 ≤ i ∧ i < (NB_IOS : Int)
  · by_cases h2 : (c i).gpio ≥ 0
    · cases h3 : (c i).type <;> simp [h1, h2, h3]
    · simp [h1, h2]
  · simp [h1]

theorem writeIo_snd (c : Ctx) (i : Int) (v : Nat) :
    (writeIo c i v).2 =
      if 0 ≤ i ∧ i < (NB_IOS : Int) ∧ (c i).gpio ≥ 0 ∧ (c i).type = IO_DOUT
      then [HWEvent.writePin (c i).gpio (c i).valueDL] else [] := by
  unfold writeIo
  by_cases h1 : 0 ≤ i ∧ i < (NB_IOS : Int)
  · by_cases h2 : (c i).gpio ≥ 0
    · cases h3 : (c i).type <;> simp [h1.1, h1.2, h2, h3]
    · simp [h1.1, h1.2, h2]
  · rcases not_and_or.mp h1 with h | h <;> simp [h]

theorem writeIo_events_pin (c : Ctx) (i : Int) (v : Nat) :
    ∀ e ∈ (writeIo c i v).2, 0 ≤ e.pin := by
  intro e he
  rw [writeIo_snd] at he
  split at he
  · rename_i hcond
    simp at he
    subst he
    exact hcond.2.2.1
  · simp at he

theorem readIo_out_of_range (o : HWOracle) (c : Ctx) (i : Int)
    (h : ¬(0 ≤ i ∧ i < (NB_IOS : Int))) : readIo o c i = (c, [], 0) := by
  unfold readIo
  simp [h]

theorem readIo_unassigned (o : HWOracle) (c : Ctx) (i : Int)
    (h1 : 0 ≤ i ∧ i < (NB_IOS : Int)) (h2 : ¬(c i).gpio ≥ 0) :
    readIo o c i = (c, [], (c i).valueUL) := by
  unfold readIo
  simp [h1, h2]

theorem readIo_not_polled (o : HWOracle) (c : Ctx) (i : Int)
    (h1 : 0 ≤ i ∧ i < (NB_IOS : Int))
    (h : ¬((c i).gpio ≥ 0 ∧ ((c i).type = IO_DIN ∨ (c i).type = IO_AIN))) :
    readIo o c i = (c, [], (c i).valueUL) := by
  unfold readIo
  by_cases h2 : (c i).gpio ≥ 0
  · have ht : ¬((c i).type = IO_DIN ∨ (c i).type = IO_AIN) := fun hx => h ⟨h2, hx⟩
    cases h3 : (c i).type <;> simp [h1, h2, h3] <;> simp [h3] at ht
  · simp [h1, h2]

theorem readIo_din (o : HWOracle) (c : Ctx) (i : Int)
    (h1 : 0 ≤ i ∧ i < (NB_IOS : Int)) (h2 : (c i).gpio ≥ 0)
    (h3 : (c i).type = IO_DIN) :
    readIo o c i =
      (updateSlot c i (fun s => { s with valueUL := o.gpioRead (c i).gpio % 256 }),
       [HWEvent.readPin (c i).gpio], o.gpioRead (c i).gpio % 256) := by
  unfold readIo
  simp [h1, h2, h3, updateSlot_self]

theorem readIo_ain (o : HWOracle) (c : Ctx) (i : Int)
    (h1 : 0 ≤ i ∧ i < (NB_IOS : Int)) (h2 : (c i).gpio ≥ 0)
    (h3 : (c i).type = IO_AIN) :
    readIo o c i =
      (updateSlot c i (fun s => { s with valueUL := o.gpioReadADC (c i).gpio % 256 }),
       [HWEvent.readADC (c i).gpio], o.gpioReadADC (c i).gpio % 256) := by
  unfold readIo
  simp [h1, h2, h3, updateSlot_self]

/-- `readIO` touches no slot record other than the one at its index. -/
theorem readIo_fst_ne (o : HWOracle) (c : Ctx) (i j : Int) (h : j ≠ i) :
    (readIo o c i).1 j = c j := by
  unfold readIo
  by_cases h1 : 0 ≤ i ∧ i < (NB_IOS : Int)
  · by_cases h2 : (c i).gpio ≥ 0
    · cases h3 : (c i).type <;> simp [h1, h2, h3, updateSlot_ne, h]
    · simp [h1, h2]
  · simp [h1]

/-- `readIO` changes at most the `valueUL` field of a slot. -/
theorem readIo_fst_fields (o : HWOracle) (c : Ctx) (i j : Int) :
    (readIo o c i).1 j = { c j with valueUL := ((readIo o c i).1 j).valueUL } := by
  by_cases h4 : j = i
  · subst h4
    unfold readIo
    by_cases h1 : 0 ≤ j ∧ j < (NB_IOS : Int)
    · by_cases h2 : (c j).gpio ≥ 0
      · cases h3 : (c j).type <;> simp [h1, h2, h3, updateSlot] <;>
          (try rw [← h3]) <;> rfl
      · simp [h1, h2]
    · simp [h1]
  · rw [readIo_fst_ne o c i j h4]

theorem readIo_events_pin (o : HWOracle) (c : Ctx) (i : Int) :
    ∀ e ∈ (readIo o c i).2.1, 0 ≤ e.pin := by
  intro e he
  unfold readIo at he
  by_cases h1 : 0 ≤ i ∧ i < (NB_IOS : Int)
  · by_cases h2 : (c i).gpio ≥ 0
    · cases h3 : (c i).type <;> simp [h1, h2, h3] at he <;>
        (subst he; exact h2)
    · simp [h1, h2] at he
  · simp [h1] at he

theorem readLoop_fst_ne (o : HWOracle) (l : List Nat) :
    ∀ (c : Ctx) (j : Int), (∀ i ∈ l, j ≠ (i : Int)) → (readLoop o l c).1 j = c j := by
  induction l with
  | nil => intro c j _; rfl
  | cons i rest ih =>
      intro c j h
      show (readLoop o rest (readIo o c i).1).1 j = c j
      rw [ih _ _ (fun k hk => h k (List.mem_cons_of_mem i hk)),
          readIo_fst_ne o c i j (h i (List.mem_cons_self i rest))]

theorem readLoop_fst_not_polled (o : HWOracle) (l : List Nat) :
    ∀ (c : Ctx) (j : Int),
      ¬((c j).gpio ≥ 0 ∧ ((c j).type = IO_DIN ∨ (c j).type = IO_AIN)) →
      (readLoop o l c).1 j = c j := by
  induction l with
  | nil => intro c j _; rfl
  | cons i rest ih =>
      intro c j h
      show (readLoop o rest (readIo o c i).1).1 j = c j
      by_cases hj : j = (i : Int)
      · have hc : (readIo o c i).1 = c := by
          rw [← hj]
          by_cases h1 : 0 ≤ j ∧ j < (NB_IOS : Int)
          · rw [readIo_not_polled o c j h1 h]
          · rw [readIo_out_of_range o c j h1]
        rw [hc, ih c j h]
      · have hcj : (readIo o c i).1 j = c j := readIo_fst_ne o c i j hj
        rw [ih ((readIo o c i).1) j (by rw [hcj]; exact h), hcj]

theorem readLoop_fst_fields (o : HWOracle) (l : List Nat) :
    ∀ (c : Ctx) (j : Int),
      (readLoop o l c).1 j = { c j with valueUL := ((readLoop o l c).1 j).valueUL } := by
  induction l with
  | nil => intro c j; rfl
  | cons i rest ih =>
      intro c j
      show (readLoop o rest (readIo o c i).1).1 j
          = { c j with valueUL := ((readLoop o rest (readIo o c i).1).1 j).valueUL }
      rw [ih ((readIo o c i).1) j]
      conv_lhs => rw [readIo_fst_fields o c i j]

theorem readLoop_events_pin (o : HWOracle) (l : List Nat) :
    ∀ (c : Ctx), ∀ e ∈ (readLoop o l c).2, 0 ≤ e.pin := by
  induction l with
  | nil => intro c e he; simp [readLoop] at he
  | cons i rest ih =>
      intro c e he
      have : e ∈ (readIo o c i).2.1 ++ (readLoop o rest (readIo o c i).1).2 := he
      rcases List.mem_append.mp this with h | h
      · exact readIo_events_pin o c i e h
      · exact ih _ e h

theorem harvestLoop_snd_ne (l : List Nat) :
    ∀ (c : Ctx) (j : Int), (∀ i ∈ l, j ≠ (i : Int)) → (harvestLoop l c).2 j = c j := by
  induction l with
  | nil => intro c j _; rfl
  | cons i rest ih =>
      intro c j h
      show (harvestLoop rest (updateSlot c i (fun s => { s with valueUL := 0 }))).2 j = c j
      rw [ih _ _ (fun k hk => h k (List.mem_cons_of_mem i hk)),
          updateSlot_ne _ _ _ _ (h i (List.mem_cons_self i rest))]

theorem harvestLoop_snd_mem (l : List Nat) :
    ∀ (c : Ctx) (i : Nat), l.Nodup → i ∈ l →
      (harvestLoop l c).2 (i : Int) = { c (i : Int) with valueUL := 0 } := by
  induction l with
  | nil => intro c i _ hi; simp at hi
  | cons k rest ih =>
      intro c i hnd hi
      have hnd' := List.nodup_cons.mp hnd
      show (harvestLoop rest (updateSlot c k (fun s => { s with valueUL := 0 }))).2 (i : Int) = _
      rcases List.mem_cons.mp hi with h | h
      · subst h
        have hnotin : ∀ m ∈ rest, (i : Int) ≠ (m : Int) := by
          intro m hm hcast
          exact hnd'.1 (by rwa [← Nat.cast_inj.mp hcast] at hm)
        rw [harvestLoop_snd_ne rest _ _ hnotin, updateSlot_self]
      · have hne : (i : Int) ≠ (k : Int) := by
          intro hcast
          exact hnd'.1 (by rwa [Nat.cast_inj.mp hcast] at h)
        rw [ih _ i hnd'.2 h, updateSlot_ne _ _ _ _ hne]

theorem harvestLoop_snd_fields (l : List Nat) :
    ∀ (c : Ctx) (j : Int),
      (harvestLoop l c).2 j = { c j with valueUL := ((harvestLoop l c).2 j).valueUL } := by
  induction l with
  | nil => intro c j; rfl
  | cons i rest ih =>
      intro c j
      show (harvestLoop rest (updateSlot c i (fun s => { s with valueUL := 0 }))).2 j
          = { c j with valueUL :=
              ((harvestLoop rest (updateSlot c i (fun s => { s with valueUL := 0 }))).2 j).valueUL }
      rw [ih (updateSlot c i (fun s => { s with valueUL := 0 })) j]
      by_cases hj : j = (i : Int)
      · conv_lhs => rw [hj, updateSlot_self]
        rw [hj]
      · conv_lhs => rw [updateSlot_ne _ _ _ _ hj]

theorem harvestLoop_bytes (l : List Nat) :
    ∀ (c : Ctx), l.Nodup →
      (harvestLoop l c).1 = l.map (fun i : Nat => (c (i : Int)).valueUL) := by
  induction l with
  | nil => intro c _; rfl
  | cons i rest ih =>
      intro c hnd
      have hnd' := List.nodup_cons.mp hnd
      show (c (i : Int)).valueUL
            :: (harvestLoop rest (updateSlot c i (fun s => { s with valueUL := 0 }))).1
          = (c (i : Int)).valueUL :: rest.map (fun k : Nat => (c (k : Int)).valueUL)
      rw [ih (updateSlot c i (fun s => { s with valueUL := 0 })) hnd'.2]
      congr 1
      apply List.map_congr_left
      intro k hk
      have hne : (k : Int) ≠ (i : Int) := by
        intro hcast
        exact hnd'.1 (by rwa [Nat.cast_inj.mp hcast] at hk)
      rw [updateSlot_ne _ _ _ _ hne]

theorem iosetLoop_fst_ne (v : List Nat) (l : List Nat) :
    ∀ (c : Ctx) (j : Int), (∀ i ∈ l, j ≠ (i : Int)) → (iosetLoop v l c).1 j = c j := by
  induction l with
  | nil => intro c j _; rfl
  | cons i rest ih =>
      intro c j h
      have hj := h i (List.mem_cons_self i rest)
      have hrest := fun k hk => h k (List.mem_cons_of_mem i hk)
      by_cases ht : (c (i : Int)).type = IO_DOUT ∨ (c (i : Int)).type = IO_PWMOUT
      · show (iosetLoop v (i :: rest) c).1 j = c j
        have : iosetLoop v (i :: rest) c =
            (let c' := updateSlot c i (fun s => { s with valueDL := v.getD i 0 })
             let w := writeIo c' i (v.getD i 0)
             let rr := iosetLoop v rest w.1
             (rr.1, w.2 ++ rr.2.1, ((i : Int), v.getD i 0) :: rr.2.2)) := by
          simp only [iosetLoop, ht, if_pos]
        rw [this]
        show (iosetLoop v rest
            (writeIo (updateSlot c i (fun s => { s with valueDL := v.getD i 0 })) i
              (v.getD i 0)).1).1 j = c j
        rw [writeIo_fst, ih _ _ hrest, updateSlot_ne _ _ _ _ hj]
      · show (iosetLoop v (i :: rest) c).1 j = c j
        have : iosetLoop v (i :: rest) c = iosetLoop v rest c := by
          simp only [iosetLoop, ht, if_neg, ite_false]
        rw [this, ih _ _ hrest]

/-- One unfolding of the `iosetLoop` output branch, with the `writeIO`
context pass-through already applied. -/
theorem iosetLoop_cons_out (v : List Nat) (i : Nat) (rest : List Nat) (c : Ctx)
    (ht : (c (i : Int)).type = IO_DOUT ∨ (c (i : Int)).type = IO_PWMOUT) :
    iosetLoop v (i :: rest) c =
      ((iosetLoop v rest (updateSlot c i (fun s => { s with valueDL := v.getD i 0 }))).1,
       (writeIo (updateSlot c i (fun s => { s with valueDL := v.getD i 0 })) i (v.getD i 0)).2
         ++ (iosetLoop v rest (updateSlot c i (fun s => { s with valueDL := v.getD i 0 }))).2.1,
       ((i : Int), v.getD i 0)
         :: (iosetLoop v rest (updateSlot c i (fun s => { s with valueDL := v.getD i 0 }))).2.2) := by
  conv_lhs => simp only [iosetLoop, ht, if_pos]
  rw [writeIo_fst]

theorem iosetLoop_cons_skip (v : List Nat) (i : Nat) (rest : List Nat) (c : Ctx)
    (ht : ¬((c (i : Int)).type = IO_DOUT ∨ (c (i : Int)).type = IO_PWMOUT)) :
    iosetLoop v (i :: rest) c = iosetLoop v rest c := by
  simp only [iosetLoop, ht, if_neg, ite_false]

/-- `iosetAction`'s loop changes at most the `valueDL` field of a slot. -/
theorem iosetLoop_fst_fields (v : List Nat) (l : List Nat) :
    ∀ (c : Ctx) (j : Int),
      (iosetLoop v l c).1 j = { c j with valueDL := ((iosetLoop v l c).1 j).valueDL } := by
  induction l with
  | nil => intro c j; rfl
  | cons i rest ih =>
      intro c j
      by_cases ht : (c (i : Int)).type = IO_DOUT ∨ (c (i : Int)).type = IO_PWMOUT
      · rw [iosetLoop_cons_out v i rest c ht]
        rw [ih (updateSlot c i (fun s => { s with valueDL := v.getD i 0 })) j]
        by_cases hj : j = (i : Int)
        · conv_lhs => rw [hj, updateSlot_self]
          rw [hj]
        · conv_lhs => rw [updateSlot_ne _ _ _ _ hj]
      · rw [iosetLoop_cons_skip v i rest c ht]
        exact ih c j

/-- Effect of `iosetAction`'s loop on a slot whose index is in the list. -/
theorem iosetLoop_fst_mem (v : List Nat) (l : List Nat) :
    ∀ (c : Ctx) (i : Nat), l.Nodup → i ∈ l →
      (iosetLoop v l c).1 (i : Int) =
        if (c (i : Int)).type = IO_DOUT ∨ (c (i : Int)).type = IO_PWMOUT
        then { c (i : Int) with valueDL := v.getD i 0 } else c (i : Int) := by
  induction l with
  | nil => intro c i _ hi; simp at hi
  | cons k rest ih =>
      intro c i hnd hi
      have hnd' := List.nodup_cons.mp hnd
      rcases List.mem_cons.mp hi with h | h
      · subst h
        by_cases ht : (c (i : Int)).type = IO_DOUT ∨ (c (i : Int)).type = IO_PWMOUT
        · rw [iosetLoop_cons_out v i rest c ht, if_pos ht]
          have hnotin : ∀ m ∈ rest, (i : Int) ≠ (m : Int) := by
            intro m hm hcast
            exact hnd'.1 (by rwa [← Nat.cast_inj.mp hcast] at hm)
          show (iosetLoop v rest _).1 (i : Int) = _
          rw [iosetLoop_fst_ne v rest _ _ hnotin, updateSlot_self]
        · rw [iosetLoop_cons_skip v i rest c ht, if_neg ht]
          have hnotin : ∀ m ∈ rest, (i : Int) ≠ (m : Int) := by
            intro m hm hcast
            exact hnd'.1 (by rwa [← Nat.cast_inj.mp hcast] at hm)
          exact iosetLoop_fst_ne v rest c _ hnotin
      · have hne : (i : Int) ≠ (k : Int) := by
          intro hcast
          exact hnd'.1 (by rwa [Nat.cast_inj.mp hcast] at h)
        by_cases ht : (c (k : Int)).type = IO_DOUT ∨ (c (k : Int)).type = IO_PWMOUT
        · rw [iosetLoop_cons_out v k rest c ht]
          show (iosetLoop v rest _).1 (i : Int) = _
          rw [ih (updateSlot c k (fun s => { s with valueDL := v.getD k 0 })) i hnd'.2 h,
              updateSlot_ne _ _ _ _ hne]
        · rw [iosetLoop_cons_skip v k rest c ht]
          exact ih c i hnd'.2 h

/-- Every output-kind slot whose index is in the list gets a `writeIO`
invocation recorded, with the corresponding input byte. -/
theorem iosetLoop_calls_mem (v : List Nat) (l : List Nat) :
    ∀ (c : Ctx) (i : Nat), i ∈ l →
      ((c (i : Int)).type = IO_DOUT ∨ (c (i : Int)).type = IO_PWMOUT) →
      ((i : Int), v.getD i 0) ∈ (iosetLoop v l c).2.2 := by
  induction l with
  | nil => intro c i hi; simp at hi
  | cons k rest ih =>
      intro c i hi ht
      rcases List.mem_cons.mp hi with h | h
      · subst h
        rw [iosetLoop_cons_out v i rest c ht]
        exact List.mem_cons_self _ _
      · by_cases htk : (c (k : Int)).type = IO_DOUT ∨ (c (k : Int)).type = IO_PWMOUT
        · rw [iosetLoop_cons_out v k rest c htk]
          have hty : ((updateSlot c k (fun s => { s with valueDL := v.getD k 0 })
              (i : Int)).type = IO_DOUT ∨
              (updateSlot c k (fun s => { s with valueDL := v.getD k 0 })
              (i : Int)).type = IO_PWMOUT) := by
            by_cases hik : (i : Int) = (k : Int)
            · rw [hik, updateSlot_self]
              rwa [← hik]
            · rwa [updateSlot_ne _ _ _ _ hik]
          exact List.mem_cons_of_mem _ (ih _ i h hty)
        · rw [iosetLoop_cons_skip v k rest c htk]
          exact ih c i h ht

theorem iosetLoop_events_pin (v : List Nat) (l : List Nat) :
    ∀ (c : Ctx), ∀ e ∈ (iosetLoop v l c).2.1, 0 ≤ e.pin := by
  induction l with
  | nil => intro c e he; simp [iosetLoop] at he
  | cons i rest ih =>
      intro c e he
      by_cases ht : (c (i : Int)).type = IO_DOUT ∨ (c (i : Int)).type = IO_PWMOUT
      · rw [iosetLoop_cons_out v i rest c ht] at he
        rcases List.mem_append.mp he with h | h
        · exact writeIo_events_pin _ _ _ e h
        · exact ih _ e h
      · rw [iosetLoop_cons_skip v i rest c ht] at he
        exact ih c e he

/-- Every configuration call `initIOs` makes for loop index `i` concerns the
pin of slot `i`, and is made only when that pin is assigned. -/
theorem initIOsStep_pin (c : Ctx) (i : Nat) :
    ∀ e ∈ initIOsStep c i, e.pin = (c (i : Int)).gpio ∧ 0 ≤ (c (i : Int)).gpio := by
  intro e he
  unfold initIOsStep at he
  by_cases h2 : (c (i : Int)).gpio ≥ 0
  · cases h3 : (c (i : Int)).type <;> simp [h2, h3] at he <;>
      first
        | (subst he; exact ⟨rfl, h2⟩)
        | (rcases he with he | he <;> (subst he; exact ⟨rfl, h2⟩))
  · simp [h2] at he

theorem initIOs_events_pin (c : Ctx) :
    ∀ e ∈ initIOs c, 0 ≤ e.pin ∧
      ∃ i : Nat, i < NB_IOS ∧ e.pin = (c (i : Int)).gpio := by
  intro e he
  unfold initIOs at he
  rcases List.mem_flatMap.mp he with ⟨i, hi, hstep⟩
  have h := initIOsStep_pin c i e hstep
  exact ⟨h.1 ▸ h.2, i, List.mem_range.mp hi, h.1⟩

/-- A button-manager callback registration made by `initIOs` always carries
the index of a slot with an assigned pin, and that slot's pin. -/
theorem initIOs_register (c : Ctx) (p a : Int) (b : Bool)
    (h : CfgEvent.registerButtonCB p a b ∈ initIOs c) :
    ∃ i : Nat, i < NB_IOS ∧ a = (i : Int) ∧ p = (c (i : Int)).gpio ∧
      0 ≤ (c (i : Int)).gpio := by
  unfold initIOs at h
  rcases List.mem_flatMap.mp h with ⟨i, hi, hstep⟩
  refine ⟨i, List.mem_range.mp hi, ?_⟩
  unfold initIOsStep at hstep
  by_cases h2 : (c (i : Int)).gpio ≥ 0
  · cases h3 : (c (i : Int)).type <;> simp [h2, h3] at hstep <;>
      exact ⟨hstep.2.1, hstep.1, h2⟩
  · simp [h2] at hstep

/-- `getD` of a mapped range picks out the function value. -/
theorem rangeMap_getD (f : Nat → Nat) (n i : Nat) (h : i < n) :
    ((List.range n).map f).getD i 0 = f i := by
  rw [List.getD_eq_getElem _ _ (by simpa using h)]
  simp

/-! ## The claims -/

/-- C1, counterexample: slot 0 of `outCtx` is a DigitalOut on pin 5 with
stored `valueDL = 0`; `writeIO(0, 1)` drives the line to 0 (the stored
`valueDL`), not to the argument 1, because the C code passes
`_ctx.ios[ioid].valueDL` to `GPIO_write`. -/
theorem C1_writeIo_counterexample :
    (outCtx 0).type = IO_DOUT ∧ (outCtx 0).gpio = 5 ∧ (outCtx 0).valueDL = 0 ∧
    writeIo outCtx 0 1 = (outCtx, [HWEvent.writePin 5 0]) ∧
    (writeIo outCtx 0 1).2 ≠ [HWEvent.writePin 5 1] :=
  ⟨rfl, rfl, rfl, rfl, by decide⟩

/-- C1, amended: for a valid index, assigned pin and kind DigitalOut,
`writeSlot(index, value)` drives the physical line to the slot's stored
`downlinkValue` (which equals the argument at the module's only call site,
where the argument is stored into `downlinkValue` first); for an invalid
index, unassigned pin, or a kind that is neither DigitalOut nor PwmOut it
performs no hardware write; in every case it changes no slot state. -/
theorem C1_writeIo_amended (c : Ctx) (ioid : Int) (v : Nat) :
    (0 ≤ ioid ∧ ioid < (NB_IOS : Int) → (c ioid).gpio ≥ 0 → (c ioid).type = IO_DOUT →
        writeIo c ioid v = (c, [HWEvent.writePin (c ioid).gpio (c ioid).valueDL])) ∧
    (¬(0 ≤ ioid ∧ ioid < (NB_IOS : Int)) ∨ (c ioid).gpio < 0 ∨
        ((c ioid).type ≠ IO_DOUT ∧ (c ioid).type ≠ IO_PWMOUT) →
        writeIo c ioid v = (c, [])) ∧
    (writeIo c ioid v).1 = c := by
  have hpair : writeIo c ioid v = ((writeIo c ioid v).1, (writeIo c ioid v).2) := rfl
  refine ⟨?_, ?_, writeIo_fst c ioid v⟩
  · intro h1 h2 h3
    rw [hpair, writeIo_fst, writeIo_snd, if_pos ⟨h1.1, h1.2, h2, h3⟩]
  · intro h
    rw [hpair, writeIo_fst, writeIo_snd, if_neg ?_]
    rintro ⟨ha, hb, hcg, hct⟩
    rcases h with h | h | h
    · exact h ⟨ha, hb⟩
    · omega
    · exact h.1 hct

/-- C1, witness for the amended theorem at slot 0 of `outCtx`. -/
theorem C1_writeIo_amended_witness :
    writeIo outCtx 0 1 = (outCtx, [HWEvent.writePin (outCtx 0).gpio (outCtx 0).valueDL]) ∧
    writeIo outCtx 3 1 = (outCtx, []) :=
  ⟨(C1_writeIo_amended outCtx 0 1).1 (by decide) (by decide) (by decide),
   (C1_writeIo_amended outCtx 3 1).2.1 (Or.inr (Or.inl (by decide)))⟩

/-- C2: `defineIO` performs its five stores with no bounds check on the
index.  At the out-of-range index 8 it writes the configuration into
`ios[8]` — one element past the 8-element array, an out-of-bounds write
(undefined behaviour) in the C program — instead of failing silently and
leaving the table alone as the claim states. -/
theorem C2_defineIo_unchecked_write :
    ((defineIo zeroCtx 8 3 "x" IO_DOUT 0 7) 8).gpio = 3 ∧
    ((defineIo zeroCtx 8 3 "x" IO_DOUT 0 7) 8).valueDL = 7 ∧
    (zeroCtx 8).gpio = 0 ∧ (zeroCtx 8).valueDL = 0 := by
  refine ⟨rfl, rfl, rfl, rfl⟩

/-- C3: a downlink set whose byte count differs from `NB_IOS` is rejected
entirely: the context is unchanged, no hardware write happens, and the
`writeIO` path is never invoked. -/
theorem C3_ioset_length_mismatch_rejected (c : Ctx) (v : List Nat)
    (h : v.length ≠ NB_IOS) :
    iosetAction c v = (c, [], []) := by
  unfold iosetAction
  rw [if_neg h]

/-- C3, witness: a 3-byte downlink set is rejected on `outCtx`. -/
theorem C3_ioset_length_mismatch_witness :
    iosetAction outCtx [1, 2, 3] = (outCtx, [], []) :=
  C3_ioset_length_mismatch_rejected outCtx [1, 2, 3] (by decide)

/-- C4: a downlink set of exactly `NB_IOS` bytes stores byte `i` into
`downlinkValue` of every slot `i` of kind DigitalOut or PwmOut (leaving the
slot's other fields unchanged) and invokes the `writeIO` path for that slot
with that byte; every slot of any other kind is left entirely unchanged. -/
theorem C4_ioset_applies_outputs (c : Ctx) (v : List Nat) (i : Nat)
    (hl : v.length = NB_IOS) (hi : i < NB_IOS) :
    ((c (i : Int)).type = IO_DOUT ∨ (c (i : Int)).type = IO_PWMOUT →
        (iosetAction c v).1 (i : Int) = { c (i : Int) with valueDL := v.getD i 0 } ∧
        ((i : Int), v.getD i 0) ∈ (iosetAction c v).2.2) ∧
    (¬((c (i : Int)).type = IO_DOUT ∨ (c (i : Int)).type = IO_PWMOUT) →
        (iosetAction c v).1 (i : Int) = c (i : Int)) := by
  have hact : iosetAction c v = iosetLoop v (List.range NB_IOS) c := by
    unfold iosetAction
    rw [if_pos hl]
  constructor
  · intro ht
    rw [hact]
    constructor
    · rw [iosetLoop_fst_mem v (List.range NB_IOS) c i (List.nodup_range _)
          (List.mem_range.mpr hi), if_pos ht]
    · exact iosetLoop_calls_mem v (List.range NB_IOS) c i (List.mem_range.mpr hi) ht
  · intro ht
    rw [hact, iosetLoop_fst_mem v (List.range NB_IOS) c i (List.nodup_range _)
        (List.mem_range.mpr hi), if_neg ht]

/-- C4, witness: the 8-byte set `[9,0,...,0]` on `outCtx` drives slot 0
(a DigitalOut) and leaves slot 1 (unassigned DigitalIn) unchanged. -/
theorem C4_ioset_applies_outputs_witness :
    (iosetAction outCtx [9, 0, 0, 0, 0, 0, 0, 0]).1 0
        = { outCtx 0 with valueDL := 9 } ∧
    ((0 : Int), 9) ∈ (iosetAction outCtx [9, 0, 0, 0, 0, 0, 0, 0]).2.2 ∧
    (iosetAction outCtx [9, 0, 0, 0, 0, 0, 0, 0]).1 1 = outCtx 1 :=
  ⟨((C4_ioset_applies_outputs outCtx [9, 0, 0, 0, 0, 0, 0, 0] 0 (by decide)
      (by decide)).1 (by decide)).1,
   ((C4_ioset_applies_outputs outCtx [9, 0, 0, 0, 0, 0, 0, 0] 0 (by decide)
      (by decide)).1 (by decide)).2,
   (C4_ioset_applies_outputs outCtx [9, 0, 0, 0, 0, 0, 0, 0] 1 (by decide)
      (by decide)).2 (by decide)⟩

/-- C5: `getData` builds the `NB_IOS + 1` byte block — byte `i` is slot `i`'s
`valueUL` as it stands after the `readIOs` refresh, the final byte is the
device-active flag — appends it under tag `UL_APP_IO_STATE` with declared
length 12, resets every slot's `valueUL` to 0, and returns `true`
unconditionally. -/
theorem C5_getData_report (o : HWOracle) (c : Ctx) (ul : List TLV) (i : Nat)
    (hi : i < NB_IOS) :
    (getData o c ul).2.2.2 = true ∧
    (getData o c ul).2.2.1 = ul ++ [(UL_APP_IO_STATE, 12,
        (List.range NB_IOS).map (fun k : Nat => ((readIOs o c).1 (k : Int)).valueUL)
          ++ [if o.deviceActive then 1 else 0])] ∧
    ((getData o c ul).1 (i : Int)).valueUL = 0 := by
  refine ⟨rfl, ?_, ?_⟩
  · show ul ++ [(UL_APP_IO_STATE, 12,
        (harvestLoop (List.range NB_IOS) (readIOs o c).1).1
          ++ [if o.deviceActive then 1 else 0])] = _
    rw [harvestLoop_bytes (List.range NB_IOS) (readIOs o c).1 (List.nodup_range _)]
  · show ((harvestLoop (List.range NB_IOS) (readIOs o c).1).2 (i : Int)).valueUL = 0
    rw [harvestLoop_snd_mem (List.range NB_IOS) (readIOs o c).1 i (List.nodup_range _)
        (List.mem_range.mpr hi)]

/-- C5, witness: a harvest on `dinCtx` with `onesOracle` appends the block
`[1,0,0,0,0,0,0,0,1]` under the module tag with declared length 12, returns
`true`, and leaves slot 0's `valueUL` reset to 0. -/
theorem C5_getData_report_witness :
    (getData onesOracle dinCtx []).2.2.2 = true ∧
    (getData onesOracle dinCtx []).2.2.1 = [] ++ [(UL_APP_IO_STATE, 12,
        (List.range NB_IOS).map
          (fun k : Nat => ((readIOs onesOracle dinCtx).1 (k : Int)).valueUL)
          ++ [if onesOracle.deviceActive then 1 else 0])] ∧
    ((getData onesOracle dinCtx []).1 ((0 : Nat) : Int)).valueUL = 0 :=
  C5_getData_report onesOracle dinCtx [] 0 (by decide)

/-- The slot records coming out of `getData` differ from the input records
at most in `valueUL`. -/
theorem getData_fst_fields (o : HWOracle) (c : Ctx) (ul : List TLV) (j : Int) :
    (getData o c ul).1 j = { c j with valueUL := ((getData o c ul).1 j).valueUL } := by
  have hres : (readIOs o c).1 j = { c j with valueUL := ((readIOs o c).1 j).valueUL } :=
    readLoop_fst_fields o (List.range NB_IOS) c j
  show (harvestLoop (List.range NB_IOS) (readIOs o c).1).2 j = _
  rw [harvestLoop_snd_fields (List.range NB_IOS) (readIOs o c).1 j]
  conv_lhs => rw [hres]
  rfl

/-- After any `getData`, every slot of the table has `valueUL = 0`. -/
theorem getData_fst_valueUL (o : HWOracle) (c : Ctx) (ul : List TLV) (i : Nat)
    (hi : i < NB_IOS) : ((getData o c ul).1 (i : Int)).valueUL = 0 := by
  show ((harvestLoop (List.range NB_IOS) (readIOs o c).1).2 (i : Int)).valueUL = 0
  rw [harvestLoop_snd_mem (List.range NB_IOS) (readIOs o c).1 i (List.nodup_range _)
      (List.mem_range.mpr hi)]

/-- Byte `i` of the block a `getData` call appends is the `valueUL` of slot
`i` after that call's `readIOs` refresh. -/
theorem getData_report_byte (o : HWOracle) (c : Ctx) (ul : List TLV) (i : Nat)
    (hi : i < NB_IOS) :
    (((getData o c ul).2.2.1.getD ul.length (0, 0, [])).2.2).getD i 0
      = ((readIOs o c).1 (i : Int)).valueUL := by
  have h1 : (getData o c ul).2.2.1 = ul ++ [(UL_APP_IO_STATE, 12,
      (harvestLoop (List.range NB_IOS) (readIOs o c).1).1
        ++ [if o.deviceActive then 1 else 0])] := rfl
  rw [h1, List.getD_append_right _ _ _ _ (Nat.le_refl _), Nat.sub_self]
  show ((harvestLoop (List.range NB_IOS) (readIOs o c).1).1
        ++ [if o.deviceActive then 1 else 0]).getD i 0 = _
  rw [harvestLoop_bytes (List.range NB_IOS) (readIOs o c).1 (List.nodup_range _),
      List.getD_append _ _ _ _ (by simpa using hi),
      rangeMap_getD _ NB_IOS i hi]

/-- C6, counterexample: `dinCtx` has a DigitalIn on pin 1 and `onesOracle`
reads every digital pin as 1, unchanged between calls.  After a first
harvest, a second harvest with no intervening edge activity still reports
byte 0 = 1 (the freshly re-polled input), not 0: the reset by the first
call does not zero the second report's polled-input bytes. -/
theorem C6_second_harvest_counterexample :
    ((((getData onesOracle ((getData onesOracle dinCtx []).1) []).2.2.1.getD 0
        (0, 0, [])).2.2).getD 0 0) = 1 := by decide

/-- C6, amended: after a first harvest, a second harvest with no intervening
edge-callback activity and the same input readings yields a report whose
byte `i` is 0 for every slot that is not a DigitalIn/AnalogIn slot with an
assigned pin; bytes of polled-input slots hold the freshly sampled reading,
which need not be 0 even when unchanged. -/
theorem C6_second_harvest_amended (o : HWOracle) (c : Ctx) (ul1 ul2 : List TLV)
    (i : Nat) (hi : i < NB_IOS)
    (h : ¬((c (i : Int)).gpio ≥ 0 ∧
          ((c (i : Int)).type = IO_DIN ∨ (c (i : Int)).type = IO_AIN))) :
    ((((getData o ((getData o c ul1).1) ul2).2.2.1.getD ul2.length
        (0, 0, [])).2.2).getD i 0) = 0 := by
  rw [getData_report_byte o ((getData o c ul1).1) ul2 i hi]
  have hfields := getData_fst_fields o c ul1 (i : Int)
  have hcond : ¬(((getData o c ul1).1 (i : Int)).gpio ≥ 0 ∧
      (((getData o c ul1).1 (i : Int)).type = IO_DIN ∨
       ((getData o c ul1).1 (i : Int)).type = IO_AIN)) := by
    rw [hfields]
    exact h
  show ((readLoop o (List.range NB_IOS) ((getData o c ul1).1)).1 (i : Int)).valueUL = 0
  rw [readLoop_fst_not_polled o (List.range NB_IOS) ((getData o c ul1).1) (i : Int) hcond]
  exact getData_fst_valueUL o c ul1 i hi

/-- C6, witness for the amended theorem: on `outCtx` (slot 0 a DigitalOut,
the rest unassigned) the second harvest's byte 0 is 0. -/
theorem C6_second_harvest_amended_witness :
    ((((getData onesOracle ((getData onesOracle outCtx []).1) []).2.2.1.getD 0
        (0, 0, [])).2.2).getD 0 0) = 0 :=
  C6_second_harvest_amended onesOracle outCtx [] [] 0 (by decide) (by decide)

/-- C7: while the device is active and the slot index is valid, a
button-release edge stores the press-type code (as a byte) into that slot's
`valueUL`, leaves every other slot untouched, and issues exactly one
`AppCore_forceUL` request carrying this module's id; any non-release edge
changes nothing and issues no request. -/
theorem C7_button_release_active (c : Ctx) (bid : Int) (pt : Nat)
    (hb : 0 ≤ bid ∧ bid < (NB_IOS : Int)) :
    buttonChangeCB true c bid SR_BUTTON_RELEASED pt =
      (updateSlot c bid (fun s => { s with valueUL := pt % 256 }), [MY_MOD_ID]) ∧
    (∀ st : Nat, st ≠ SR_BUTTON_RELEASED →
        buttonChangeCB true c bid st pt = (c, [])) := by
  constructor
  · unfold buttonChangeCB
    rw [if_pos rfl, if_pos rfl, if_pos hb]
  · intro st hst
    unfold buttonChangeCB
    rw [if_neg hst]

/-- C7, witness: a release with press type 2 on slot 0 of `dinCtx` stores 2
and forces one scoped report; a press (state 1) does nothing. -/
theorem C7_button_release_active_witness :
    buttonChangeCB true dinCtx 0 SR_BUTTON_RELEASED 2 =
      (updateSlot dinCtx 0 (fun s => { s with valueUL := 2 % 256 }), [MY_MOD_ID]) ∧
    buttonChangeCB true dinCtx 0 1 2 = (dinCtx, []) :=
  ⟨(C7_button_release_active dinCtx 0 2 (by decide)).1,
   (C7_button_release_active dinCtx 0 2 (by decide)).2 1 (by decide)⟩

/-- C8: while the device is inactive, both edge callbacks mutate nothing and
force no report, whatever the index and state; and with an out-of-range slot
index they mutate nothing and force no report even while active. -/
theorem C8_edge_dropped (c : Ctx) (bid : Int) (st pt : Nat) :
    (buttonChangeCB false c bid st pt = (c, []) ∧
     stateInputChangeCB false c bid st pt = (c, [])) ∧
    (¬(0 ≤ bid ∧ bid < (NB_IOS : Int)) →
      buttonChangeCB true c bid st pt = (c, []) ∧
      stateInputChangeCB true c bid st pt = (c, [])) := by
  refine ⟨⟨?_, ?_⟩, fun h => ⟨?_, ?_⟩⟩
  · unfold buttonChangeCB
    by_cases hst : st = SR_BUTTON_RELEASED
    · rw [if_pos hst, if_neg (by simp)]
    · rw [if_neg hst]
  · unfold stateInputChangeCB
    rw [if_neg (by simp)]
  · unfold buttonChangeCB
    by_cases hst : st = SR_BUTTON_RELEASED
    · rw [if_pos hst, if_pos rfl, if_neg h]
    · rw [if_neg hst]
  · unfold stateInputChangeCB
    rw [if_pos rfl, if_neg h]

/-- C8, witness: an inactive-device release on slot 0 and an active-device
event with the bad index 9 are both dropped by both callbacks. -/
theorem C8_edge_dropped_witness :
    buttonChangeCB false dinCtx 0 SR_BUTTON_RELEASED 2 = (dinCtx, []) ∧
    stateInputChangeCB true dinCtx 9 1 2 = (dinCtx, []) :=
  ⟨(C8_edge_dropped dinCtx 0 SR_BUTTON_RELEASED 2).1.1,
   ((C8_edge_dropped dinCtx 9 1 2).2 (by decide)).2⟩

/-- C9, counterexample: slot 0 of `staleCtx` has the unassigned pin but a
stale `valueUL = 5`; `readIO(0)` returns 5, not 0 — the C code falls through
to `return _ctx.ios[ioid].valueUL` for an unassigned pin. -/
theorem C9_readIo_counterexample :
    (staleCtx 0).gpio = -1 ∧ readIo zeroOracle staleCtx 0 = (staleCtx, [], 5) ∧
    (readIo zeroOracle staleCtx 0).2.2 ≠ 0 :=
  ⟨rfl, rfl, by decide⟩

/-- C9, amended: for an invalid index `readSlot` performs no hardware
access, mutates nothing and returns the literal 0; for a valid index with
an unassigned pin it performs no hardware access, mutates nothing and
returns the slot's current (stale) `uplinkValue` — 0 in every state in
which that value was never set, since an unassigned slot's `uplinkValue` is
never written; for a Button or StateInput slot it never samples hardware
nor modifies `uplinkValue`, returning the value stored by the edge
callbacks. -/
theorem C9_readIo_amended (o : HWOracle) (c : Ctx) (ioid : Int) :
    (¬(0 ≤ ioid ∧ ioid < (NB_IOS : Int)) → readIo o c ioid = (c, [], 0)) ∧
    (0 ≤ ioid ∧ ioid < (NB_IOS : Int) → (c ioid).gpio < 0 →
        readIo o c ioid = (c, [], (c ioid).valueUL)) ∧
    (0 ≤ ioid ∧ ioid < (NB_IOS : Int) →
        ((c ioid).type = IO_BUTTON ∨ (c ioid).type = IO_STATE) →
        readIo o c ioid = (c, [], (c ioid).valueUL)) := by
  refine ⟨readIo_out_of_range o c ioid, ?_, ?_⟩
  · intro h1 hg
    exact readIo_unassigned o c ioid h1 (not_le.mpr hg)
  · intro h1 ht
    refine readIo_not_polled o c ioid h1 ?_
    rintro ⟨_, hDA⟩
    rcases ht with ht | ht <;> rcases hDA with hDA | hDA <;> rw [ht] at hDA <;>
      exact IO_TYPE.noConfusion hDA

/-- C9, witness: the invalid index 9 returns 0 on `dinCtx`; slot 0 of
`staleCtx` (unassigned) returns its stale value without hardware access. -/
theorem C9_readIo_amended_witness :
    readIo zeroOracle dinCtx 9 = (dinCtx, [], 0) ∧
    readIo zeroOracle staleCtx 0 = (staleCtx, [], (staleCtx 0).valueUL) :=
  ⟨(C9_readIo_amended zeroOracle dinCtx 9).1 (by decide),
   (C9_readIo_amended zeroOracle staleCtx 0).2.1 (by decide) (by decide)⟩

/-- C10, counterexample: slot 0 of `ghostOutCtx` is declared DigitalOut but
carries the unassigned pin sentinel; an 8-byte downlink set still stores
byte 0 into its `downlinkValue` (9 replaces 0), so the slot is not inert
under `applyOutputSet`. -/
theorem C10_unassigned_counterexample :
    (ghostOutCtx 0).gpio = -1 ∧ (ghostOutCtx 0).valueDL = 0 ∧
    ((iosetAction ghostOutCtx [9, 0, 0, 0, 0, 0, 0, 0]).1 0).valueDL = 9 := by
  refine ⟨rfl, rfl, by decide⟩

/-- C10, amended: a slot with an unassigned pin incurs no hardware access
in any operation and no configuration call or callback registration at
initialization; its record is unmodified by `readSlot`, `readAll` and
`writeSlot`; `harvest` emits its (stale, normally zero) `uplinkValue` as a
placeholder byte and resets its `uplinkValue` to 0 like every slot's; and
`applyOutputSet` leaves it unchanged except that, when the command has
valid length and the slot's kind is DigitalOut or PwmOut, the commanded
byte is still stored into its `downlinkValue` (with no hardware effect). -/
theorem C10_unassigned_inert_amended (o : HWOracle) (c : Ctx) (ul : List TLV)
    (v : List Nat) (w : Nat) (i : Nat) (hi : i < NB_IOS)
    (hg : (c (i : Int)).gpio < 0) :
    (∀ e ∈ initIOs c, e.pin ≠ (c (i : Int)).gpio) ∧
    (∀ (p : Int) (b : Bool), CfgEvent.registerButtonCB p (i : Int) b ∉ initIOs c) ∧
    readIo o c (i : Int) = (c, [], (c (i : Int)).valueUL) ∧
    ((readIOs o c).1 (i : Int) = c (i : Int) ∧
      ∀ e ∈ (readIOs o c).2, e.pin ≠ (c (i : Int)).gpio) ∧
    writeIo c (i : Int) w = (c, []) ∧
    ((iosetAction c v).1 (i : Int) =
      (if v.length = NB_IOS ∧
          ((c (i : Int)).type = IO_DOUT ∨ (c (i : Int)).type = IO_PWMOUT)
        then { c (i : Int) with valueDL := v.getD i 0 } else c (i : Int)) ∧
      ∀ e ∈ (iosetAction c v).2.1, e.pin ≠ (c (i : Int)).gpio) ∧
    ((getData o c ul).1 (i : Int) = { c (i : Int) with valueUL := 0 } ∧
      (((getData o c ul).2.2.1.getD ul.length (0, 0, [])).2.2).getD i 0
        = (c (i : Int)).valueUL ∧
      ∀ e ∈ (getData o c ul).2.1, e.pin ≠ (c (i : Int)).gpio) := by
  have hrange : 0 ≤ (i : Int) ∧ (i : Int) < (NB_IOS : Int) :=
    ⟨Int.ofNat_nonneg i, by exact_mod_cast hi⟩
  have hnp : ¬((c (i : Int)).gpio ≥ 0 ∧
      ((c (i : Int)).type = IO_DIN ∨ (c (i : Int)).type = IO_AIN)) := by
    rintro ⟨ha, _⟩
    omega
  refine ⟨?_, ?_, ?_, ⟨?_, ?_⟩, ?_, ⟨?_, ?_⟩, ?_, ?_, ?_⟩
  · intro e he heq
    have h0 := (initIOs_events_pin c e he).1
    rw [heq] at h0
    omega
  · intro p b hmem
    obtain ⟨k, _, ha, _, hgk⟩ := initIOs_register c p (i : Int) b hmem
    rw [Nat.cast_inj.mp ha] at hg
    omega
  · exact readIo_unassigned o c (i : Int) hrange (not_le.mpr hg)
  · exact readLoop_fst_not_polled o (List.range NB_IOS) c (i : Int) hnp
  · intro e he heq
    have h0 := readLoop_events_pin o (List.range NB_IOS) c e he
    rw [heq] at h0
    omega
  · have hpair : writeIo c (i : Int) w
        = ((writeIo c (i : Int) w).1, (writeIo c (i : Int) w).2) := rfl
    rw [hpair, writeIo_fst, writeIo_snd, if_neg ?_]
    rintro ⟨_, _, hcg, _⟩
    omega
  · unfold iosetAction
    by_cases hl : v.length = NB_IOS
    · rw [if_pos hl, iosetLoop_fst_mem v (List.range NB_IOS) c i (List.nodup_range _)
          (List.mem_range.mpr hi)]
      simp [hl]
    · rw [if_neg hl]
      simp [hl]
  · intro e he heq
    unfold iosetAction at he
    by_cases hl : v.length = NB_IOS
    · rw [if_pos hl] at he
      have h0 := iosetLoop_events_pin v (List.range NB_IOS) c e he
      rw [heq] at h0
      omega
    · rw [if_neg hl] at he
      simp at he
  · have h8 := getData_fst_fields o c ul (i : Int)
    rw [getData_fst_valueUL o c ul i hi] at h8
    exact h8
  · rw [getData_report_byte o c ul i hi]
    show ((readLoop o (List.range NB_IOS) c).1 (i : Int)).valueUL = (c (i : Int)).valueUL
    rw [readLoop_fst_not_polled o (List.range NB_IOS) c (i : Int) hnp]
  · intro e he heq
    have he' : e ∈ (readIOs o c).2 := he
    have h0 := readLoop_events_pin o (List.range NB_IOS) c e he'
    rw [heq] at h0
    omega

/-- C10, witness at slot 0 of `ghostOutCtx` (unassigned DigitalOut). -/
theorem C10_unassigned_inert_witness :
    readIo zeroOracle ghostOutCtx ((0 : Nat) : Int)
      = (ghostOutCtx, [], (ghostOutCtx ((0 : Nat) : Int)).valueUL) ∧
    writeIo ghostOutCtx ((0 : Nat) : Int) 7 = (ghostOutCtx, []) ∧
    (getData zeroOracle ghostOutCtx []).1 ((0 : Nat) : Int)
      = { ghostOutCtx ((0 : Nat) : Int) with valueUL := 0 } :=
  ⟨(C10_unassigned_inert_amended zeroOracle ghostOutCtx [] [9, 0, 0, 0, 0, 0, 0, 0]
      7 0 (by decide) (by decide)).2.2.1,
   (C10_unassigned_inert_amended zeroOracle ghostOutCtx [] [9, 0, 0, 0, 0, 0, 0, 0]
      7 0 (by decide) (by decide)).2.2.2.2.1,
   (C10_unassigned_inert_amended zeroOracle ghostOutCtx [] [9, 0, 0, 0, 0, 0, 0, 0]
      7 0 (by decide) (by decide)).2.2.2.2.2.2.1⟩

end ModIo
